import Mathlib

/-!
Verification of the chaincraft-rust message-driven replicated-state core.

This file shallowly embeds, in Lean 4, the data model and operations of:
  * `src/shared.rs`        — `MessageType` wire encoding, `SharedMessage`
                             content hashing and signature verification;
  * `src/shared_object.rs` — `SimpleSharedNumber` and the
                             `ApplicationObjectRegistry` dispatch loop;
  * `src/examples/tendermint.rs` — the Tendermint BFT consensus object.

Modelling conventions:
  * Rust `u64`/`u32` counters (heights, rounds, voting power) are `Nat`;
    no operation reasoned about here can overflow in the scenarios the
    spec describes, and the spec's arithmetic statements are mathematical.
  * `HashMap` is embedded as an association list with overwrite-on-insert
    semantics (`HMap`); iteration order of a Rust `HashMap` is arbitrary,
    the list order is one admissible determinization.
  * SHA-256 is treated symbolically: hashing functions are parameters,
    and collision-freeness (injectivity) is an explicit hypothesis where
    a property needs it.  The byte stream fed to the hasher is modelled
    faithfully (field-by-field concatenation of the serialized forms).
  * `DateTime<Utc>` values are carried as their RFC3339 renderings
    (`String`), which is all the hashed/stored code paths use; `Utc::now()`
    becomes an explicit `now` argument.
  * Fallible Rust functions returning `Result` are embedded as `Except`;
    a Rust panic (`unwrap` on an empty block list) is `Option.none`.
-/

namespace Chaincraft

instance {ε α : Type} [DecidableEq ε] [DecidableEq α] : DecidableEq (Except ε α) := fun x y =>
  match x, y with
  | .ok a, .ok b =>
      if h : a = b then .isTrue (by rw [h]) else .isFalse (fun hh => by cases hh; exact h rfl)
  | .ok _, .error _ => .isFalse (fun hh => by cases hh)
  | .error _, .ok _ => .isFalse (fun hh => by cases hh)
  | .error e, .error f =>
      if h : e = f then .isTrue (by rw [h]) else .isFalse (fun hh => by cases hh; exact h rfl)

/-! ## JSON values (model of `serde_json::Value`)

Numbers are restricted to integers: the only code paths embedded here use
`is_i64`/`as_i64`, and no claim exercises floating-point JSON numbers. -/

inductive Json where
  | null : Json
  | bool : Bool → Json
  | int : Int → Json
  | str : String → Json
  | arr : List Json → Json
  | obj : List (String × Json) → Json

/-- Escape a string for compact JSON output.  Quote and backslash escaping
only; control-character escapes are elided (no embedded claim exercises
them), which keeps the rendering injective on the strings that occur. -/
def Json.escapeChar (c : Char) : String :=
  if c = '"' then "\\\"" else if c = '\\' then "\\\\" else String.singleton c

def Json.escape (s : String) : String :=
  s.data.foldl (fun acc c => acc ++ Json.escapeChar c) ""

mutual

/-- Compact rendering, as `serde_json::to_string` produces it. -/
def Json.render : Json → String
  | .null => "null"
  | .bool true => "true"
  | .bool false => "false"
  | .int n => toString n
  | .str s => "\"" ++ Json.escape s ++ "\""
  | .arr xs => "[" ++ Json.renderItems xs ++ "]"
  | .obj fs => "\x7b" ++ Json.renderFields fs ++ "\x7d"

def Json.renderItems : List Json → String
  | [] => ""
  | [x] => Json.render x
  | x :: y :: xs => Json.render x ++ "," ++ Json.renderItems (y :: xs)

def Json.renderFields : List (String × Json) → String
  | [] => ""
  | [(k, v)] => "\"" ++ Json.escape k ++ "\":" ++ Json.render v
  | (k, v) :: f :: fs =>
      "\"" ++ Json.escape k ++ "\":" ++ Json.render v ++ "," ++ Json.renderFields (f :: fs)

end

/-- Model of `serde_json::Value::as_i64` (restricted to the integer case). -/
def Json.asInt? : Json → Option Int
  | .int n => some n
  | _ => none

/-- Model of `serde_json::Value::is_i64`. -/
def Json.isInt : Json → Bool
  | .int _ => true
  | _ => false

/-! ## `MessageType` and its wire encoding (`src/shared.rs`) -/

inductive MessageType where
  | peerDiscovery
  | requestLocalPeers
  | localPeers
  | requestSharedObjectUpdate
  | sharedObjectUpdate
  | get
  | set
  | delete
  | response
  | notification
  | heartbeat
  | error
  | custom : String → MessageType
deriving DecidableEq

/-- The `Display` impl for `MessageType`: upper-case token for well-known
kinds, the raw name for `Custom`. -/
def MessageType.token : MessageType → String
  | .peerDiscovery => "PEER_DISCOVERY"
  | .requestLocalPeers => "REQUEST_LOCAL_PEERS"
  | .localPeers => "LOCAL_PEERS"
  | .requestSharedObjectUpdate => "REQUEST_SHARED_OBJECT_UPDATE"
  | .sharedObjectUpdate => "SHARED_OBJECT_UPDATE"
  | .get => "GET"
  | .set => "SET"
  | .delete => "DELETE"
  | .response => "RESPONSE"
  | .notification => "NOTIFICATION"
  | .heartbeat => "HEARTBEAT"
  | .error => "ERROR"
  | .custom name => name

/-- `impl Serialize for MessageType`: `Custom(name)` becomes the
single-field object, every other variant its token string. -/
def MessageType.serialize : MessageType → Json
  | .custom name => .obj [("Custom", .str name)]
  | mt => .str mt.token

/-- The visitor's `visit_str`: well-known token table with an open
fallback to `Custom`. -/
def MessageType.ofToken (value : String) : MessageType :=
  if value = "PEER_DISCOVERY" then .peerDiscovery
  else if value = "REQUEST_LOCAL_PEERS" then .requestLocalPeers
  else if value = "LOCAL_PEERS" then .localPeers
  else if value = "REQUEST_SHARED_OBJECT_UPDATE" then .requestSharedObjectUpdate
  else if value = "SHARED_OBJECT_UPDATE" then .sharedObjectUpdate
  else if value = "GET" then .get
  else if value = "SET" then .set
  else if value = "DELETE" then .delete
  else if value = "RESPONSE" then .response
  else if value = "NOTIFICATION" then .notification
  else if value = "HEARTBEAT" then .heartbeat
  else if value = "ERROR" then .error
  else .custom value

/-- `impl Deserialize for MessageType` (the `MessageTypeVisitor`): a string
goes through `visit_str`, a map through `visit_map` (one `"Custom"` entry;
a leftover entry or any other shape is a serde error). -/
def MessageType.deserialize : Json → Except String MessageType
  | .str value => .ok (MessageType.ofToken value)
  | .obj [] => .error "missing field Custom"
  | .obj [(key, v)] =>
      if key = "Custom" then
        match v with
        | .str s => .ok (.custom s)
        | _ => .error "invalid type for Custom"
      else .error "unknown field"
  | .obj (_ :: _ :: _) => .error "trailing map entries"
  | _ => .error "invalid type: expected a message type string or Custom object"

/-! ## `HMap`: association-list embedding of `std::collections::HashMap`

Insert overwrites an existing binding in place; `lookup`, `values`,
`keys`, `filter` (Rust `retain`) follow the list order, one admissible
determinization of `HashMap` iteration order. -/

abbrev HMap (α β : Type) := List (α × β)

namespace HMap

variable {α β : Type} [DecidableEq α]

def lookup : HMap α β → α → Option β
  | [], _ => none
  | (k, v) :: rest, a => if k = a then some v else lookup rest a

def insert : HMap α β → α → β → HMap α β
  | [], a, b => [(a, b)]
  | (k, v) :: rest, a, b => if k = a then (a, b) :: rest else (k, v) :: insert rest a b

def keys : HMap α β → List α
  | [] => []
  | (k, _) :: rest => k :: keys rest

def values : HMap α β → List β
  | [] => []
  | (_, v) :: rest => v :: values rest

end HMap


/-! ## `SharedMessage` (`src/shared.rs`)

The hash type `H` is a parameter and the SHA-256 hasher a function
argument `sha`; the pair fed to `sha` is the byte stream the Rust code
hashes, split as (fixed-length 16-byte bincode serialization of the
`Uuid`, concatenation of the three textual contributions in hashing
order).  `DateTime` fields are carried as their RFC3339 strings. -/

structure SharedMessage (H : Type) where
  id : List Nat
  messageType : MessageType
  targetId : Option (List Nat)
  data : Json
  timestamp : String
  signature : Option (List Nat)
  hash : H

namespace SharedMessage

variable {H : Type}

/-- The exact input `calculate_hash` feeds to SHA-256: the id's bincode
bytes, then `message_type.to_string()`, `data.to_string()` and
`timestamp.to_rfc3339()` in that order. -/
def hashInput (m : SharedMessage H) : List Nat × String :=
  (m.id, m.messageType.token ++ m.data.render ++ m.timestamp)

/-- `SharedMessage::calculate_hash`. -/
def calculateHash (sha : List Nat × String → H) (m : SharedMessage H) : H :=
  sha (hashInput m)

/-- `SharedMessage::verify_hash`: the stored hash equals the recomputed one. -/
def verifyHash (sha : List Nat × String → H) (m : SharedMessage H) : Prop :=
  m.hash = calculateHash sha m

/-- `SharedMessage::new`: fresh message with no target and no signature,
whose `hash` field is set from `calculate_hash` (the randomly drawn id and
the construction time are explicit arguments). -/
def new (sha : List Nat × String → H) (messageType : MessageType) (data : Json)
    (id : List Nat) (timestamp : String) : SharedMessage H :=
  { id := id, messageType := messageType, targetId := none, data := data,
    timestamp := timestamp, signature := none,
    hash := sha (id, messageType.token ++ data.render ++ timestamp) }

end SharedMessage

/-! ## Signature verification (`SharedMessage::verify_signature`)

The two key schemes are tags; the external crate operations are function
parameters: `toBytes` models `bincode` serialization of the
signature-stripped message, `edVerify`/`secpVerify` the curve
verifications, and `secpParseOk` the success of
`k256::ecdsa::Signature::from_slice` (which requires exactly 64 bytes —
stated as a hypothesis where a theorem needs it). -/

inductive CryptoError where
  | invalidSignature
deriving DecidableEq

inductive PublicKeyKind where
  | ed25519
  | secp256k1
deriving DecidableEq

/-- `SharedMessage::verify_signature`, shared.rs lines 253-293. -/
def verifySignature {H : Type} (toBytes : SharedMessage H → List Nat)
    (edVerify : List Nat → List Nat → Bool)
    (secpParseOk : List Nat → Bool)
    (secpVerify : List Nat → List Nat → Bool)
    (m : SharedMessage H) (pk : PublicKeyKind) : Except CryptoError Bool :=
  match m.signature with
  | none => .ok false
  | some sigBytes =>
    let msgBytes := toBytes { m with signature := none }
    match pk with
    | .ed25519 =>
      if sigBytes.length ≠ 64 then .error .invalidSignature
      else .ok (edVerify msgBytes sigBytes)
    | .secp256k1 =>
      if secpParseOk sigBytes then .ok (secpVerify msgBytes sigBytes)
      else .error .invalidSignature

/-! ## `SimpleSharedNumber` (`src/shared_object.rs`)

Fields `id`, `created_at`, `updated_at`, `locked` are never read or
written by `is_valid`/`add_message`/`get_latest_digest` and are omitted.
`HM` is the dedup-hash type; `shaN` models SHA-256 over the rendered
`{"content": data}` JSON. -/

structure SimpleSharedNumber (H HM : Type) where
  number : Int
  messages : List (SharedMessage H)
  seenHashes : List HM
  digests : List String

namespace SimpleSharedNumber

variable {H HM : Type}

/-- A fresh object (`SimpleSharedNumber::new`). -/
def init : SimpleSharedNumber H HM :=
  { number := 0, messages := [], seenHashes := [], digests := [] }

/-- `SimpleSharedNumber::calculate_message_hash`: SHA-256 of the compact
rendering of the wrapper object `{"content": data}`. -/
def calculateMessageHash (shaN : String → HM) (data : Json) : HM :=
  shaN (Json.render (.obj [("content", data)]))

/-- `SimpleSharedNumber::is_valid`: only integer payloads. -/
def isValid (m : SharedMessage H) : Bool :=
  m.data.isInt

/-- `SimpleSharedNumber::add_message`: dedup on the payload hash, then add
the integer to `number` and store the message.  The Rust function always
returns `Ok(())`; the model returns the new state. -/
def addMessage [DecidableEq HM] (shaN : String → HM)
    (s : SimpleSharedNumber H HM) (m : SharedMessage H) : SimpleSharedNumber H HM :=
  let msgHash := calculateMessageHash shaN m.data
  if msgHash ∈ s.seenHashes then s
  else
    let s1 := { s with seenHashes := msgHash :: s.seenHashes }
    match m.data.asInt? with
    | some value =>
        { s1 with number := s1.number + value, messages := s1.messages ++ [m] }
    | none => s1

/-- `SimpleSharedNumber::get_latest_digest`: the number, as a string. -/
def getLatestDigest (s : SimpleSharedNumber H HM) : String :=
  toString s.number

end SimpleSharedNumber

/-! ## `ApplicationObjectRegistry::process_message` (`src/shared_object.rs`)

The registry holds trait objects; the model is parametric in the object
state type `σ` with the trait's `is_valid`/`add_message` as function
parameters (`is_valid` is modelled as returning a plain `Bool`; its own
error path is not exercised by any claim).  The registry's `HashMap`
iteration is a list in some order.  Mutations made before an error
persist in `self`, so the model returns the updated object list alongside
the `Result`. -/

namespace Registry

def processMessage {σ Msg E : Type} (isValid : σ → Msg → Bool)
    (addMsg : σ → Msg → Except E σ) :
    List (Nat × σ) → Msg → List (Nat × σ) × Except E (List Nat)
  | [], _ => ([], .ok [])
  | (i, s) :: rest, m =>
    if isValid s m then
      match addMsg s m with
      | .ok s' =>
        let r := processMessage isValid addMsg rest m
        ((i, s') :: r.1, r.2.map (fun ids => i :: ids))
      | .error e => ((i, s) :: rest, .error e)
    else
      let r := processMessage isValid addMsg rest m
      ((i, s) :: r.1, r.2)

end Registry

/-! ## Tendermint BFT consensus object (`src/examples/tendermint.rs`)

`u64` heights and `u32` rounds are `Nat`; timestamps are RFC3339 strings
passed in as `now`; the ECDSA signer/verifier handles are omitted (no
embedded operation uses them).  Signatures inside messages are opaque
strings, exactly as in the source. -/

namespace Tendermint

structure ValidatorInfo where
  address : String
  publicKey : String
  votingPower : Nat
  active : Bool
deriving DecidableEq

structure Block where
  height : Nat
  hash : String
  previousHash : String
  timestamp : String
  proposer : String
  transactions : List Json
  commitSignatures : List String

structure Vote where
  validator : String
  blockHash : Option String
  signature : String
  timestamp : String
deriving DecidableEq

inductive ConsensusState where
  | propose
  | prevote
  | precommit
  | commit
deriving DecidableEq

inductive TendermintMessageType where
  | proposal (height : Nat) (round : Nat) (blockHash : String)
      (proposer : String) (timestamp : String) (signature : String)
  | prevote (height : Nat) (round : Nat) (blockHash : Option String)
      (validator : String) (signature : String)
  | precommit (height : Nat) (round : Nat) (blockHash : Option String)
      (validator : String) (signature : String)
  | validatorSet (validators : List ValidatorInfo) (height : Nat)
  | blockCommit (height : Nat) (blockHash : String)
      (commitSignatures : List String) (timestamp : String)
deriving DecidableEq

structure TendermintState where
  validators : HMap String ValidatorInfo
  blocks : List Block
  currentHeight : Nat
  currentRound : Nat
  state : ConsensusState
  proposals : HMap (Nat × Nat) TendermintMessageType
  prevotes : HMap (Nat × Nat) (HMap String Vote)
  precommits : HMap (Nat × Nat) (HMap String Vote)
  lockedBlock : Option String
  lockedRound : Option Nat
  myValidatorAddress : String
  messages : List TendermintMessageType

/-- The error type of `chaincraft` results; the embedded operations only
ever construct the serialization variant, and none of the modelled
Tendermint operations actually return an error. -/
inductive TmError where
  | serialization
deriving DecidableEq

/-- `TendermintObject::new` (minus key generation): genesis block at
height 0, consensus starting at height 1, round 0. -/
def initialState (myAddr now : String) : TendermintState :=
  { validators := []
    blocks := [{ height := 0, hash := "genesis_hash", previousHash := "",
                 timestamp := now, proposer := "genesis", transactions := [],
                 commitSignatures := [] }]
    currentHeight := 1
    currentRound := 0
    state := .propose
    proposals := []
    prevotes := []
    precommits := []
    lockedBlock := none
    lockedRound := none
    myValidatorAddress := myAddr
    messages := [] }

/-- `TendermintObject::add_validator`. -/
def addValidator (s : TendermintState) (address publicKey : String)
    (votingPower : Nat) : TendermintState :=
  let validator : ValidatorInfo :=
    { address := address, publicKey := publicKey,
      votingPower := votingPower, active := true }
  { s with validators := HMap.insert s.validators address validator }

/-- `TendermintObject::total_voting_power`: sum of the powers of the
active validators. -/
def totalVotingPower (s : TendermintState) : Nat :=
  (((HMap.values s.validators).filter (fun v => v.active)).map
      (fun v => v.votingPower)).sum

/-- `TendermintObject::has_majority`: strict +2/3 test. -/
def hasMajority (s : TendermintState) (votingPower : Nat) : Bool :=
  votingPower * 3 > totalVotingPower s * 2

/-- `TendermintObject::process_proposal`. -/
def processProposal (s : TendermintState) (msg : TendermintMessageType) :
    Except TmError (Bool × TendermintState) :=
  match msg with
  | .proposal height round _ _ _ _ =>
    if height = s.currentHeight ∧ round = s.currentRound then
      .ok (true, { s with
        proposals := HMap.insert s.proposals (height, round) msg,
        messages := s.messages ++ [msg] })
    else .ok (false, s)
  | _ => .ok (false, s)

/-- `TendermintObject::process_prevote`; `now` is the `Utc::now()` stamped
into the stored `Vote`. -/
def processPrevote (s : TendermintState) (msg : TendermintMessageType)
    (now : String) : Except TmError (Bool × TendermintState) :=
  match msg with
  | .prevote height round blockHash validator signature =>
    if height = s.currentHeight ∧ round = s.currentRound then
      let vote : Vote := { validator := validator, blockHash := blockHash,
                           signature := signature, timestamp := now }
      let slotVotes := (HMap.lookup s.prevotes (height, round)).getD []
      .ok (true, { s with
        prevotes := HMap.insert s.prevotes (height, round)
          (HMap.insert slotVotes validator vote),
        messages := s.messages ++ [msg] })
    else .ok (false, s)
  | _ => .ok (false, s)

/-- `TendermintObject::process_precommit`. -/
def processPrecommit (s : TendermintState) (msg : TendermintMessageType)
    (now : String) : Except TmError (Bool × TendermintState) :=
  match msg with
  | .precommit height round blockHash validator signature =>
    if height = s.currentHeight ∧ round = s.currentRound then
      let vote : Vote := { validator := validator, blockHash := blockHash,
                           signature := signature, timestamp := now }
      let slotVotes := (HMap.lookup s.precommits (height, round)).getD []
      .ok (true, { s with
        precommits := HMap.insert s.precommits (height, round)
          (HMap.insert slotVotes validator vote),
        messages := s.messages ++ [msg] })
    else .ok (false, s)
  | _ => .ok (false, s)

/-- One iteration of the accumulation loop of `can_commit`: add the
voting power the validator map records for the vote's sender to the
entry of the vote's candidate (`Option String`: `none` is a nil vote); a
vote from an address absent from the validator map adds nothing. -/
def tallyStep (validators : HMap String ValidatorInfo)
    (acc : HMap (Option String) Nat) (vote : Vote) : HMap (Option String) Nat :=
  match HMap.lookup validators vote.validator with
  | some vi =>
      HMap.insert acc vote.blockHash
        ((HMap.lookup acc vote.blockHash).getD 0 + vi.votingPower)
  | none => acc

/-- The accumulation loop of `can_commit`: fold the precommit votes into a
map from candidate to accumulated power. -/
def tallyVotes (validators : HMap String ValidatorInfo) (votes : List Vote) :
    HMap (Option String) Nat :=
  votes.foldl (tallyStep validators) []

/-- `TendermintObject::can_commit`: first candidate that is a concrete
block hash and has a strict +2/3 majority. -/
def canCommit (s : TendermintState) : Option String :=
  match HMap.lookup s.precommits (s.currentHeight, s.currentRound) with
  | some slotVotes =>
    let voteCounts := tallyVotes s.validators (HMap.values slotVotes)
    voteCounts.findSome? (fun entry =>
      match entry.1 with
      | some h => if hasMajority s entry.2 then some h else none
      | none => none)
  | none => none

/-- `TendermintObject::commit_block`: append a block carrying every
precommit signature of the current slot, advance to the next height,
reset the round and locks, and drop all vote/proposal slots below the new
height.  `none` models the `unwrap` panic on an empty block list; the
source has no error return path. -/
def commitBlock (s : TendermintState) (blockHash : String) (now : String) :
    Option TendermintState :=
  match s.blocks.getLast? with
  | none => none
  | some lastBlock =>
    let block : Block :=
      { height := s.currentHeight, hash := blockHash,
        previousHash := lastBlock.hash, timestamp := now,
        proposer := s.myValidatorAddress, transactions := [],
        commitSignatures :=
          (HMap.values ((HMap.lookup s.precommits
              (s.currentHeight, s.currentRound)).getD [])).map
            (fun v => v.signature) }
    let nh := s.currentHeight + 1
    some { s with
      blocks := s.blocks ++ [block]
      currentHeight := nh
      currentRound := 0
      state := .propose
      lockedBlock := none
      lockedRound := none
      prevotes := s.prevotes.filter (fun e => nh ≤ e.1.1)
      precommits := s.precommits.filter (fun e => nh ≤ e.1.1)
      proposals := s.proposals.filter (fun e => nh ≤ e.1.1) }

/-- Fold a list of precommit messages through `process_precommit`,
keeping the state (test-scenario helper). -/
def runPrecommits (s : TendermintState) (msgs : List TendermintMessageType)
    (now : String) : Except TmError TendermintState :=
  msgs.foldlM (fun st m => (processPrecommit st m now).map Prod.snd) s

/-! Specification-level views of the tally, used to state what
`can_commit` computes.  `weightFor` is the accumulated voting power a
candidate holds in a vote list: a vote counts if and only if it names
exactly that candidate (so a nil vote, `blockHash = none`, never counts
toward any concrete hash), and contributes the voting power the
validator map currently records for its sender (zero if unregistered). -/

/-- Voting power `can_commit` attributes to one vote: the registered
power of its sender, or 0 if the sender is not in the validator map. -/
def regPower (validators : HMap String ValidatorInfo) (v : Vote) : Nat :=
  match HMap.lookup validators v.validator with
  | some vi => vi.votingPower
  | none => 0

/-- Accumulated voting power for a candidate in a list of votes. -/
def weightFor (validators : HMap String ValidatorInfo) :
    List Vote → Option String → Nat
  | [], _ => 0
  | v :: votes, c =>
      (if v.blockHash = c then regPower validators v else 0) +
        weightFor validators votes c

/-- The precommit votes of the current (height, round) slot. -/
def currentVotes (s : TendermintState) : List Vote :=
  HMap.values ((HMap.lookup s.precommits (s.currentHeight, s.currentRound)).getD [])

/-- Invariant: in every stored (height, round) slot, each validator has
at most one recorded vote (the per-slot maps have no duplicate keys). -/
def VoteMapsNodup (s : TendermintState) : Prop :=
  (∀ slot vm, HMap.lookup s.prevotes slot = some vm → (HMap.keys vm).Nodup) ∧
  (∀ slot vm, HMap.lookup s.precommits slot = some vm → (HMap.keys vm).Nodup)

end Tendermint

/-! ## Concrete scenario data used by individual claims -/

/-- Three equal-weight validators A, B, C (100 each), as in the spec's
quorum-boundary scenario. -/
def c1Start : Tendermint.TendermintState :=
  Tendermint.addValidator
    (Tendermint.addValidator
      (Tendermint.addValidator (Tendermint.initialState "node" "t0") "A" "pkA" 100)
      "B" "pkB" 100)
    "C" "pkC" 100

def c1PrecommitA : Tendermint.TendermintMessageType :=
  .precommit 1 0 (some "H") "A" "sigA"

def c1PrecommitB : Tendermint.TendermintMessageType :=
  .precommit 1 0 (some "H") "B" "sigB"

def c1PrecommitC : Tendermint.TendermintMessageType :=
  .precommit 1 0 (some "H") "C" "sigC"

/-- The state of `c1Start` after all three precommits for "H" (written
directly, for instantiating the soundness direction of C1). -/
def c1AllPrecommits : Tendermint.TendermintState :=
  { c1Start with precommits :=
      [((1, 0),
        [("A", { validator := "A", blockHash := some "H", signature := "sigA",
                 timestamp := "now" }),
         ("B", { validator := "B", blockHash := some "H", signature := "sigB",
                 timestamp := "now" }),
         ("C", { validator := "C", blockHash := some "H", signature := "sigC",
                 timestamp := "now" })])] }

/-- Toy `ApplicationObject` implementation for exercising the registry
dispatch loop: every message is valid; applying to state 0 errors,
applying to any other state increments it. -/
def c5IsValid : Int → Unit → Bool := fun _ _ => true

def c5AddMsg : Int → Unit → Except String Int :=
  fun s _ => if s = 0 then .error "boom" else .ok (s + 1)

/-- An integer-payload message carrying 0 (for the C6 boundary). -/
def c6MsgZero : SharedMessage String :=
  { id := [], messageType := .set, targetId := none, data := .int 0,
    timestamp := "t", signature := none, hash := "h" }

/-- The identity "hash": a perfectly collision-free (injective) stand-in
for SHA-256 over the modelled hasher input. -/
def c7Sha : List Nat × String → List Nat × String := fun p => p

/-- A fresh message of kind `Get` under the identity hash. -/
def c7Msg : SharedMessage (List Nat × String) :=
  SharedMessage.new c7Sha .get (Json.int 1)
    [0, 1, 2, 3, 4, 5, 6, 7, 8, 9, 10, 11, 12, 13, 14, 15] "2024-01-01T00:00:00Z"

/-- `c7Msg` with its `message_type` field mutated to `Custom("GET")` and
the stored hash left as it was. -/
def c7Mutated : SharedMessage (List Nat × String) :=
  { c7Msg with messageType := .custom "GET" }

/-- Concrete stand-ins for the external crypto operations of
`verify_signature` (C8): bincode serialization, the two curve verifiers,
and `k256` signature parsing, which accepts only 64-byte slices. -/
def c8ToBytes : SharedMessage String → List Nat := fun _ => []

def c8EdVerify : List Nat → List Nat → Bool := fun _ _ => false

def c8SecpParse : List Nat → Bool := fun bs => bs.length == 64

def c8SecpVerify : List Nat → List Nat → Bool := fun _ _ => false

/-- A message carrying no signature at all. -/
def c8MsgNoSig : SharedMessage String :=
  { id := [], messageType := .heartbeat, targetId := none, data := .null,
    timestamp := "t", signature := none, hash := "h" }

/-- A message carrying a 3-byte signature (wrong length for both schemes). -/
def c8MsgShortSig : SharedMessage String :=
  { c8MsgNoSig with signature := some [1, 2, 3] }

/-- State after validator "V" prevotes for "B" at (1, 0) on the fresh
object (C10 scenario). -/
def c10After1 : Tendermint.TendermintState :=
  match Tendermint.processPrevote (Tendermint.initialState "me" "t")
      (.prevote 1 0 (some "B") "V" "sg1") "now" with
  | .ok (_, s') => s'
  | .error _ => Tendermint.initialState "me" "t"

/-- State after the same validator "V" prevotes again in the same slot,
this time for "B2" (C10 scenario: the second vote must overwrite). -/
def c10After2 : Tendermint.TendermintState :=
  match Tendermint.processPrevote c10After1
      (.prevote 1 0 (some "B2") "V" "sg2") "now2" with
  | .ok (_, s') => s'
  | .error _ => c10After1

/-! ## Library lemmas about the `HMap` embedding -/

namespace HMap

variable {α β : Type} [DecidableEq α]

theorem lookup_insert_self (m : HMap α β) (a : α) (b : β) :
    lookup (insert m a b) a = some b := by
  induction m with
  | nil => simp [insert, lookup]
  | cons hd tl ih =>
    obtain ⟨k, v⟩ := hd
    by_cases hk : k = a
    · simp [insert, hk, lookup]
    · simp [insert, hk, lookup, ih]

theorem lookup_insert_ne (m : HMap α β) (a c : α) (b : β) (h : c ≠ a) :
    lookup (insert m a b) c = lookup m c := by
  induction m with
  | nil => simp [insert, lookup, Ne.symm h]
  | cons hd tl ih =>
    obtain ⟨k, v⟩ := hd
    by_cases hk : k = a
    · subst hk
      simp [insert, lookup, Ne.symm h]
    · simp [insert, hk, lookup, ih]

theorem mem_keys_insert {m : HMap α β} {a c : α} {b : β}
    (h : c ∈ keys (insert m a b)) : c ∈ keys m ∨ c = a := by
  induction m with
  | nil =>
    right
    simpa [insert, keys] using h
  | cons hd tl ih =>
    obtain ⟨k, v⟩ := hd
    by_cases hk : k = a
    · subst hk
      rcases List.mem_cons.mp (by simpa [insert, keys] using h) with h1 | h1
      · exact Or.inr h1
      · exact Or.inl (by simp [keys, h1])
    · rcases List.mem_cons.mp (by simpa [insert, hk, keys] using h) with h1 | h1
      · exact Or.inl (by simp [keys, h1])
      · rcases ih h1 with h2 | h2
        · exact Or.inl (by simp [keys, h2])
        · exact Or.inr h2

theorem nodup_keys_insert {m : HMap α β} (a : α) (b : β)
    (h : (keys m).Nodup) : (keys (insert m a b)).Nodup := by
  induction m with
  | nil => simp [insert, keys]
  | cons hd tl ih =>
    obtain ⟨k, v⟩ := hd
    simp only [keys, List.nodup_cons] at h
    by_cases hk : k = a
    · subst hk
      simpa [insert, keys, List.nodup_cons] using h
    · simp only [insert, hk, if_false, keys, List.nodup_cons]
      refine ⟨fun hmem => ?_, ih h.2⟩
      rcases mem_keys_insert hmem with h' | h'
      · exact h.1 h'
      · exact hk h'

theorem lookup_eq_none_of_not_mem_keys {m : HMap α β} {a : α}
    (h : a ∉ keys m) : lookup m a = none := by
  induction m with
  | nil => simp [lookup]
  | cons hd tl ih =>
    obtain ⟨k, v⟩ := hd
    simp only [keys, List.mem_cons] at h
    push_neg at h
    simp [lookup, Ne.symm h.1, ih h.2]

theorem mem_keys_of_mem {m : HMap α β} {a : α} {b : β}
    (h : (a, b) ∈ m) : a ∈ keys m := by
  induction m with
  | nil => simp at h
  | cons hd tl ih =>
    obtain ⟨k, v⟩ := hd
    rcases List.mem_cons.mp h with h1 | h1
    · obtain ⟨h1a, _⟩ := Prod.mk.injEq a b k v ▸ h1
      simp [keys, h1a]
    · simp [keys, ih h1]

theorem lookup_eq_some_of_mem {m : HMap α β} {a : α} {b : β}
    (hnd : (keys m).Nodup) (h : (a, b) ∈ m) : lookup m a = some b := by
  induction m with
  | nil => simp at h
  | cons hd tl ih =>
    obtain ⟨k, v⟩ := hd
    simp only [keys, List.nodup_cons] at hnd
    rcases List.mem_cons.mp h with h1 | h1
    · obtain ⟨h1a, h1b⟩ := Prod.mk.injEq a b k v ▸ h1
      simp [lookup, h1a.symm, h1b.symm]
    · have hka : k ≠ a := by
        intro he
        subst he
        exact hnd.1 (mem_keys_of_mem h1)
      simp [lookup, hka, ih hnd.2 h1]

theorem mem_of_mem_keys {m : HMap α β} {a : α}
    (h : a ∈ keys m) : ∃ b, (a, b) ∈ m := by
  induction m with
  | nil => simp [keys] at h
  | cons hd tl ih =>
    obtain ⟨k, v⟩ := hd
    rcases List.mem_cons.mp (by simpa [keys] using h) with h1 | h1
    · subst h1
      exact ⟨v, List.mem_cons_self _ _⟩
    · obtain ⟨b, hb⟩ := ih h1
      exact ⟨b, List.mem_cons_of_mem _ hb⟩

end HMap

/-! ## General helper lemmas -/

theorem stringExt {s t : String} (h : s.data = t.data) : s = t := by
  cases s
  cases t
  exact congrArg String.mk h

theorem listGetLastEqNone {α : Type} {l : List α} (h : l.getLast? = none) : l = [] := by
  cases l with
  | nil => rfl
  | cons a t => simp [List.getLast?_eq_none_iff] at h

theorem findSomeEqSome {α β : Type} {f : α → Option β} {l : List α} {b : β}
    (h : l.findSome? f = some b) : ∃ a, a ∈ l ∧ f a = some b := by
  induction l with
  | nil => simp [List.findSome?] at h
  | cons x xs ih =>
    rw [List.findSome?_cons] at h
    cases hf : f x with
    | some c =>
      simp [hf] at h
      exact ⟨x, List.mem_cons_self x xs, by rw [hf, h]⟩
    | none =>
      simp [hf] at h
      obtain ⟨a, ha, hfa⟩ := ih h
      exact ⟨a, List.mem_cons_of_mem x ha, hfa⟩

theorem findSomeEqNone {α β : Type} {f : α → Option β} {l : List α}
    (h : l.findSome? f = none) : ∀ a ∈ l, f a = none := by
  simpa [List.findSome?_eq_none] using h

/-! ## Claim C9 — `MessageType` wire-encoding round-trip -/

/-- Claim C9: serializing any message kind and deserializing the result
reproduces the same value; well-known kinds travel as their upper-case
token strings, the `Custom` variant as the single-field object
`{"Custom": name}`, and the deserializer accepts both forms. -/
theorem c9_messageType_wire_roundtrip :
    (∀ mt : MessageType, MessageType.deserialize (MessageType.serialize mt) = .ok mt) ∧
    (∀ name, MessageType.serialize (.custom name) = .obj [("Custom", .str name)]) ∧
    (∀ (mt : MessageType) (s : String), MessageType.serialize mt = .str s →
      MessageType.deserialize (.str s) = .ok mt) ∧
    (∀ name, MessageType.deserialize (.obj [("Custom", .str name)]) = .ok (.custom name)) := by
  refine ⟨?_, ?_, ?_, ?_⟩
  · intro mt
    cases mt
    case custom name => simp [MessageType.serialize, MessageType.deserialize]
    all_goals decide
  · intro name
    rfl
  · intro mt s h
    cases mt <;> simp only [MessageType.serialize] at h <;> cases h <;> decide
  · intro name
    simp [MessageType.deserialize]

/-- Closed instantiation of C9: a custom and a well-known kind round-trip,
and the asserted wire forms are accepted. -/
theorem c9_messageType_wire_roundtrip_witness :
    MessageType.deserialize (MessageType.serialize (.custom "room-42")) = .ok (.custom "room-42") ∧
    MessageType.deserialize (.str "HEARTBEAT") = .ok .heartbeat ∧
    MessageType.deserialize (.obj [("Custom", .str "room-42")]) = .ok (.custom "room-42") :=
  ⟨c9_messageType_wire_roundtrip.1 (.custom "room-42"),
   c9_messageType_wire_roundtrip.2.2.1 .heartbeat "HEARTBEAT" rfl,
   c9_messageType_wire_roundtrip.2.2.2 "room-42"⟩

/-! ## Claim C4 — stale-round messages are ignored without state change -/

/-- Claim C4: a proposal, prevote or precommit whose (height, round)
differs from the object's current (current_height, current_round) is
processed as `Ok(false)` — not an error — and the state is returned
completely unchanged (no proposal stored, no vote recorded, no message
appended). -/
theorem c4_stale_round_ignored :
    ∀ (s : Tendermint.TendermintState) (now : String),
      (∀ h r bh p ts sg, (h, r) ≠ (s.currentHeight, s.currentRound) →
        Tendermint.processProposal s (.proposal h r bh p ts sg) = .ok (false, s)) ∧
      (∀ h r bh v sg, (h, r) ≠ (s.currentHeight, s.currentRound) →
        Tendermint.processPrevote s (.prevote h r bh v sg) now = .ok (false, s)) ∧
      (∀ h r bh v sg, (h, r) ≠ (s.currentHeight, s.currentRound) →
        Tendermint.processPrecommit s (.precommit h r bh v sg) now = .ok (false, s)) := by
  intro s now
  have key : ∀ h r, (h, r) ≠ (s.currentHeight, s.currentRound) →
      ¬(h = s.currentHeight ∧ r = s.currentRound) := by
    intro h r hne hand
    exact hne (by rw [hand.1, hand.2])
  refine ⟨?_, ?_, ?_⟩
  · intro h r bh p ts sg hne
    simp [Tendermint.processProposal, key h r hne]
  · intro h r bh v sg hne
    simp [Tendermint.processPrevote, key h r hne]
  · intro h r bh v sg hne
    simp [Tendermint.processPrecommit, key h r hne]

/-- Closed instantiation of C4 on the fresh object (current slot (1,0)):
messages at (2,0) and (1,1) are ignored with no state change. -/
theorem c4_stale_round_ignored_witness :
    Tendermint.processProposal (Tendermint.initialState "me" "t")
        (.proposal 2 0 "B" "P" "ts" "sg") = .ok (false, Tendermint.initialState "me" "t") ∧
    Tendermint.processPrevote (Tendermint.initialState "me" "t")
        (.prevote 1 1 (some "B") "V" "sg") "now" = .ok (false, Tendermint.initialState "me" "t") ∧
    Tendermint.processPrecommit (Tendermint.initialState "me" "t")
        (.precommit 2 5 none "V" "sg") "now" = .ok (false, Tendermint.initialState "me" "t") :=
  ⟨(c4_stale_round_ignored (Tendermint.initialState "me" "t") "now").1 2 0 "B" "P" "ts" "sg"
      (by decide),
   (c4_stale_round_ignored (Tendermint.initialState "me" "t") "now").2.1 1 1 (some "B") "V" "sg"
      (by decide),
   (c4_stale_round_ignored (Tendermint.initialState "me" "t") "now").2.2 2 5 none "V" "sg"
      (by decide)⟩

/-! ## Claim C2 — commit without quorum

The source `commit_block` (tendermint.rs lines 267-297) contains no
quorum check and no error return: it unconditionally appends a block and
advances the height.  The claim that it errors with "insufficient
votes/signatures" and leaves the state unchanged is therefore false. -/

/-- Claim C2 counterexample: the freshly initialized object has no
precommit quorum for any hash (`can_commit` is `none`), yet
`commit_block` does not report an error — it succeeds and mutates the
state, advancing `current_height` from 1 to 2. -/
theorem c2_counterexample :
    Tendermint.canCommit (Tendermint.initialState "me" "t0") = none ∧
    (Tendermint.initialState "me" "t0").currentHeight = 1 ∧
    Option.map (fun t => Tendermint.TendermintState.currentHeight t)
        (Tendermint.commitBlock (Tendermint.initialState "me" "t0") "h1" "t1") = some 2 := by
  decide

/-- Claim C2 amended: `commit_block` performs no quorum check.  For every
state with a nonempty chain in which no hash has a precommit quorum, it
still succeeds (no error is reported) and mutates the state, advancing
`current_height` by exactly 1; the "insufficient votes/signatures" error
path does not exist in the code. -/
theorem c2_commit_without_quorum_succeeds :
    ∀ (s : Tendermint.TendermintState) (bh now : String),
      s.blocks ≠ [] →
      Tendermint.canCommit s = none →
      Option.map (fun t => Tendermint.TendermintState.currentHeight t)
          (Tendermint.commitBlock s bh now) = some (s.currentHeight + 1) := by
  intro s bh now hb _
  cases hl : s.blocks.getLast? with
  | none => exact absurd (listGetLastEqNone hl) hb
  | some lastBlock =>
    unfold Tendermint.commitBlock
    rw [hl]
    simp

/-- Closed instantiation of the amended C2 at the fresh object. -/
theorem c2_commit_without_quorum_succeeds_witness :
    Option.map (fun t => Tendermint.TendermintState.currentHeight t)
        (Tendermint.commitBlock (Tendermint.initialState "me" "t0") "h1" "t1") = some 2 := by
  have h := c2_commit_without_quorum_succeeds (Tendermint.initialState "me" "t0") "h1" "t1"
    (by simp [Tendermint.initialState]) (by decide)
  simpa using h

/-! ## Claim C3 — effects of a successful commit -/

/-- Claim C3: after a successful `commit_block`, `current_height` grows by
exactly 1, `current_round` resets to 0, the block list grows by exactly 1,
the lock fields are cleared, and exactly the stored proposals, prevotes
and precommits whose height is at least the new height are retained (all
strictly lower slots are discarded). -/
theorem c3_commit_effects :
    ∀ (s : Tendermint.TendermintState) (bh now : String)
      (s' : Tendermint.TendermintState),
      Tendermint.commitBlock s bh now = some s' →
      s'.currentHeight = s.currentHeight + 1 ∧
      s'.currentRound = 0 ∧
      s'.blocks.length = s.blocks.length + 1 ∧
      s'.lockedBlock = none ∧
      s'.lockedRound = none ∧
      s'.proposals = s.proposals.filter (fun e => s.currentHeight + 1 ≤ e.1.1) ∧
      s'.prevotes = s.prevotes.filter (fun e => s.currentHeight + 1 ≤ e.1.1) ∧
      s'.precommits = s.precommits.filter (fun e => s.currentHeight + 1 ≤ e.1.1) := by
  intro s bh now s' h
  unfold Tendermint.commitBlock at h
  cases hl : s.blocks.getLast? with
  | none =>
    rw [hl] at h
    cases h
  | some lastBlock =>
    rw [hl] at h
    injection h with h2
    subst h2
    refine ⟨rfl, rfl, ?_, rfl, rfl, rfl, rfl, rfl⟩
    simp

/-- Closed instantiation of C3 at the fresh object. -/
theorem c3_commit_effects_witness :
    Option.map (fun t => Tendermint.TendermintState.currentHeight t)
        (Tendermint.commitBlock (Tendermint.initialState "me" "t0") "h1" "t1") = some 2 ∧
    Option.map (fun t => Tendermint.TendermintState.currentRound t)
        (Tendermint.commitBlock (Tendermint.initialState "me" "t0") "h1" "t1") = some 0 ∧
    Option.map (fun t => t.blocks.length)
        (Tendermint.commitBlock (Tendermint.initialState "me" "t0") "h1" "t1") = some 2 := by
  cases heq : Tendermint.commitBlock (Tendermint.initialState "me" "t0") "h1" "t1" with
  | none =>
    have hs : (Tendermint.commitBlock (Tendermint.initialState "me" "t0") "h1" "t1").isSome = true := by
      decide
    rw [heq] at hs
    cases hs
  | some s' =>
    have h3 := c3_commit_effects (Tendermint.initialState "me" "t0") "h1" "t1" s' heq
    refine ⟨?_, ?_, ?_⟩ <;> simp [h3.1, h3.2.1, h3.2.2.1, Tendermint.initialState]

/-! ## Claim C6 — duplicate dispatch to `SimpleSharedNumber`

The redelivery no-op holds, but "the digest changes exactly once across
the two dispatches" fails on the boundary: a payload of 0 (or a payload
whose content hash was already seen) leaves the digest unchanged even on
the first dispatch. -/

/-- Claim C6 counterexample: dispatching the integer payload 0 to a fresh
`SimpleSharedNumber` twice changes the digest zero times, not exactly
once: the digest is "0" before the first dispatch, after it, and after
the second. -/
theorem c6_counterexample :
    Json.isInt c6MsgZero.data = true ∧
    SimpleSharedNumber.getLatestDigest
        (SimpleSharedNumber.addMessage id
          (SimpleSharedNumber.init : SimpleSharedNumber String String) c6MsgZero) =
      SimpleSharedNumber.getLatestDigest
        (SimpleSharedNumber.init : SimpleSharedNumber String String) ∧
    SimpleSharedNumber.getLatestDigest
        (SimpleSharedNumber.addMessage id
          (SimpleSharedNumber.addMessage id
            (SimpleSharedNumber.init : SimpleSharedNumber String String) c6MsgZero)
          c6MsgZero) =
      SimpleSharedNumber.getLatestDigest
        (SimpleSharedNumber.init : SimpleSharedNumber String String) := by
  decide

/-- Claim C6 amended: re-dispatching an identical message is a no-op (the
whole object state — number, message list, seen hashes, digests — is
exactly as after the first dispatch, so the digest also stays put), a
digest change can only happen on the first dispatch, and it happens there
exactly when the payload hash was unseen and the integer is nonzero (the
number then moves by that nonzero amount; the digest is its decimal
rendering). -/
theorem c6_duplicate_dispatch_noop :
    ∀ {H HM : Type} [inst : DecidableEq HM] (shaN : String → HM)
      (s : SimpleSharedNumber H HM) (m : SharedMessage H) (v : Int),
      m.data = Json.int v →
      (SimpleSharedNumber.addMessage shaN (SimpleSharedNumber.addMessage shaN s m) m =
        SimpleSharedNumber.addMessage shaN s m) ∧
      (SimpleSharedNumber.getLatestDigest
          (SimpleSharedNumber.addMessage shaN (SimpleSharedNumber.addMessage shaN s m) m) =
        SimpleSharedNumber.getLatestDigest (SimpleSharedNumber.addMessage shaN s m)) ∧
      ((SimpleSharedNumber.calculateMessageHash shaN m.data ∈ s.seenHashes ∨ v = 0) →
        SimpleSharedNumber.getLatestDigest (SimpleSharedNumber.addMessage shaN s m) =
          SimpleSharedNumber.getLatestDigest s) ∧
      (SimpleSharedNumber.getLatestDigest (SimpleSharedNumber.addMessage shaN s m) ≠
          SimpleSharedNumber.getLatestDigest s →
        SimpleSharedNumber.calculateMessageHash shaN m.data ∉ s.seenHashes ∧ v ≠ 0) ∧
      (SimpleSharedNumber.calculateMessageHash shaN m.data ∉ s.seenHashes → v ≠ 0 →
        (SimpleSharedNumber.addMessage shaN s m).number ≠ s.number) := by
  intro H HM inst shaN s m v hdata
  have hint : m.data.asInt? = some v := by rw [hdata]; rfl
  have hnoop : SimpleSharedNumber.addMessage shaN (SimpleSharedNumber.addMessage shaN s m) m =
      SimpleSharedNumber.addMessage shaN s m := by
    by_cases hmem : SimpleSharedNumber.calculateMessageHash shaN m.data ∈ s.seenHashes
    · simp [SimpleSharedNumber.addMessage, hmem]
    · simp [SimpleSharedNumber.addMessage, hmem, hint]
  have hchanged : ∀ hs : (SimpleSharedNumber.calculateMessageHash shaN m.data ∈ s.seenHashes ∨ v = 0),
      SimpleSharedNumber.getLatestDigest (SimpleSharedNumber.addMessage shaN s m) =
        SimpleSharedNumber.getLatestDigest s := by
    intro hs
    by_cases hmem : SimpleSharedNumber.calculateMessageHash shaN m.data ∈ s.seenHashes
    · simp [SimpleSharedNumber.addMessage, hmem]
    · have hv0 : v = 0 := hs.resolve_left hmem
      subst hv0
      simp [SimpleSharedNumber.addMessage, hmem, hint, SimpleSharedNumber.getLatestDigest]
  refine ⟨hnoop, by rw [hnoop], hchanged, ?_, ?_⟩
  · intro hne
    constructor
    · intro hmem
      exact hne (hchanged (Or.inl hmem))
    · intro hv0
      exact hne (hchanged (Or.inr hv0))
  · intro hmem hv0
    simp [SimpleSharedNumber.addMessage, hmem, hint]
    omega

/-- Closed instantiation of the amended C6 at the zero-payload message. -/
theorem c6_duplicate_dispatch_noop_witness :
    SimpleSharedNumber.addMessage id
        (SimpleSharedNumber.addMessage id
          (SimpleSharedNumber.init : SimpleSharedNumber String String) c6MsgZero)
        c6MsgZero =
      SimpleSharedNumber.addMessage id
        (SimpleSharedNumber.init : SimpleSharedNumber String String) c6MsgZero ∧
    SimpleSharedNumber.getLatestDigest
        (SimpleSharedNumber.addMessage id
          (SimpleSharedNumber.init : SimpleSharedNumber String String) c6MsgZero) =
      SimpleSharedNumber.getLatestDigest
        (SimpleSharedNumber.init : SimpleSharedNumber String String) :=
  have h := c6_duplicate_dispatch_noop (id : String → String)
    (SimpleSharedNumber.init : SimpleSharedNumber String String) c6MsgZero 0 rfl
  ⟨h.1, h.2.2.1 (Or.inr rfl)⟩

/-! ## Claim C5 — registry dispatch and apply errors

In `ApplicationObjectRegistry::process_message`
(shared_object.rs:301-326), `object.add_message(...).await?` propagates
the first apply error immediately: objects later in the iteration order
are never dispatched to, so the claimed independence fails. -/

/-- Claim C5 counterexample: two objects, both reporting `is_valid` true.
Object 1's apply errors; object 2's apply would have succeeded (5 ↦ 6),
but dispatch stops: the registry returns the error and object 2's state
is untouched — the message was never dispatched to it. -/
theorem c5_counterexample :
    c5IsValid 5 () = true ∧
    c5AddMsg 5 () = .ok 6 ∧
    Registry.processMessage c5IsValid c5AddMsg [(1, (0 : Int)), (2, 5)] () =
      ([(1, 0), (2, 5)], .error "boom") := by
  decide

/-- Claim C5 amended: an object's apply error aborts the dispatch round at
that object: objects before it in the iteration order have already been
dispatched to (their updates persist), the error is surfaced to the
caller, and every object after the failing one is left untouched and is
not dispatched to. -/
theorem c5_first_error_aborts_dispatch :
    ∀ {σ Msg E : Type} (isValid : σ → Msg → Bool) (addMsg : σ → Msg → Except E σ)
      (pre : List (Nat × σ)) (i : Nat) (s : σ) (post : List (Nat × σ)) (m : Msg)
      (e : E) (ids : List Nat),
      isValid s m = true →
      addMsg s m = .error e →
      (Registry.processMessage isValid addMsg pre m).2 = .ok ids →
      Registry.processMessage isValid addMsg (pre ++ (i, s) :: post) m =
        ((Registry.processMessage isValid addMsg pre m).1 ++ (i, s) :: post, .error e) := by
  intro σ Msg E isValid addMsg pre
  induction pre with
  | nil =>
    intro i s post m e ids hv ha _
    simp [Registry.processMessage, hv, ha]
  | cons hd tl ih =>
    intro i s post m e ids hv ha hok
    obtain ⟨j, t⟩ := hd
    rw [List.cons_append]
    cases hvt : isValid t m with
    | true =>
      cases hat : addMsg t m with
      | ok t' =>
        simp only [Registry.processMessage, hvt, if_true, hat] at hok ⊢
        cases hc : (Registry.processMessage isValid addMsg tl m).2 with
        | error e' =>
          rw [hc] at hok
          simp [Except.map] at hok
        | ok ids' =>
          have hmain := ih i s post m e ids' hv ha hc
          rw [hmain]
          simp [Except.map]
      | error e2 =>
        simp [Registry.processMessage, hvt, hat] at hok
    | false =>
      simp only [Registry.processMessage, hvt, Bool.false_eq_true, if_false] at hok ⊢
      have hmain := ih i s post m e ids hv ha hok
      rw [hmain]
      simp

/-- Closed instantiation of the amended C5 with the toy objects: the
object before the failing one is updated (3 ↦ 4), the failing object and
its successor keep their states, and the error is returned. -/
theorem c5_first_error_aborts_dispatch_witness :
    Registry.processMessage c5IsValid c5AddMsg ([(7, (3 : Int))] ++ (1, 0) :: [(2, 5)]) () =
      ([(7, 4), (1, 0), (2, 5)], .error "boom") := by
  have h := c5_first_error_aborts_dispatch c5IsValid c5AddMsg [(7, (3 : Int))] 1 0 [(2, 5)]
    () "boom" [7] (by decide) (by decide) (by decide)
  rw [h]
  decide

/-! ## Claim C8 — `verify_signature` failure modes

The code (shared.rs:253-293) returns `Ok(false)` — not an error — when no
signature is attached (`else { Ok(false) }`); a present signature of the
wrong byte length does produce `Err(Crypto(InvalidSignature))` on both
schemes. -/

/-- Claim C8 counterexample: a message with no signature makes
`verify_signature` return `Ok(false)` under either key scheme, not the
claimed authentication error. -/
theorem c8_counterexample :
    c8MsgNoSig.signature = none ∧
    verifySignature c8ToBytes c8EdVerify c8SecpParse c8SecpVerify c8MsgNoSig .ed25519 =
      .ok false ∧
    verifySignature c8ToBytes c8EdVerify c8SecpParse c8SecpVerify c8MsgNoSig .secp256k1 =
      .ok false := by
  decide

/-- Claim C8 amended: when the message carries no signature,
`verify_signature` returns `Ok(false)` (not an error); when a signature is
present but its byte length does not match the scheme (64 bytes for
Ed25519, and 64 bytes for secp256k1 signature parsing), it fails with the
`InvalidSignature` authentication error. -/
theorem c8_verify_signature_error_paths :
    ∀ {H : Type} (toBytes : SharedMessage H → List Nat)
      (edVerify : List Nat → List Nat → Bool) (secpParseOk : List Nat → Bool)
      (secpVerify : List Nat → List Nat → Bool) (m : SharedMessage H),
      (∀ pk, m.signature = none →
        verifySignature toBytes edVerify secpParseOk secpVerify m pk = .ok false) ∧
      (∀ sig, m.signature = some sig → sig.length ≠ 64 →
        verifySignature toBytes edVerify secpParseOk secpVerify m .ed25519 =
          .error .invalidSignature) ∧
      ((∀ bs, secpParseOk bs = true → bs.length = 64) →
        ∀ sig, m.signature = some sig → sig.length ≠ 64 →
          verifySignature toBytes edVerify secpParseOk secpVerify m .secp256k1 =
            .error .invalidSignature) := by
  intro H toBytes edVerify secpParseOk secpVerify m
  refine ⟨?_, ?_, ?_⟩
  · intro pk hnone
    simp [verifySignature, hnone]
  · intro sig hsig hlen
    simp [verifySignature, hsig, hlen]
  · intro hparse sig hsig hlen
    have hp : secpParseOk sig = false := by
      cases hps : secpParseOk sig with
      | false => rfl
      | true => exact absurd (hparse sig hps) hlen
    simp [verifySignature, hsig, hp]

/-- Closed instantiation of the amended C8: no signature gives `Ok(false)`,
a 3-byte signature gives `InvalidSignature` under both schemes. -/
theorem c8_verify_signature_error_paths_witness :
    verifySignature c8ToBytes c8EdVerify c8SecpParse c8SecpVerify c8MsgShortSig .ed25519 =
      .error .invalidSignature ∧
    verifySignature c8ToBytes c8EdVerify c8SecpParse c8SecpVerify c8MsgShortSig .secp256k1 =
      .error .invalidSignature :=
  have h2 := c8_verify_signature_error_paths c8ToBytes c8EdVerify c8SecpParse c8SecpVerify
    c8MsgShortSig
  ⟨h2.2.1 [1, 2, 3] rfl (by decide),
   h2.2.2 (fun bs hb => by simpa [c8SecpParse] using hb) [1, 2, 3] rfl (by decide)⟩

/-! ## Claim C7 — content-hash integrity

Freshly constructed messages always verify.  But mutating a hashed field
does not always break verification: the hasher input concatenates
`message_type.to_string()`, and `Custom("GET")` has the same string form
as `Get`, so that mutation preserves the hash input itself — no hash
function can detect it.  For mutations that do change the field's
serialized contribution, verification fails for every collision-free
hash. -/

/-- Claim C7 counterexample: mutating the hashed `message_type` field of a
fresh `Get` message to `Custom("GET")` — without recomputing the stored
hash — leaves `verify_hash` true, even under the injective (perfectly
collision-free) hash `c7Sha`: both values print as "GET", so the hash
input is unchanged. -/
theorem c7_counterexample :
    c7Mutated.messageType ≠ c7Msg.messageType ∧
    SharedMessage.verifyHash c7Sha c7Msg ∧
    SharedMessage.verifyHash c7Sha c7Mutated := by
  refine ⟨by decide, rfl, ?_⟩
  show c7Mutated.hash = SharedMessage.calculateHash c7Sha c7Mutated
  rfl

/-- Claim C7 amended: every freshly constructed message satisfies
`verify_hash`; and, for a collision-free (injective) hash, mutating any
of the four hashed fields without recomputing the hash makes
`verify_hash` false whenever the mutation changes the field's serialized
contribution to the hasher input: a different id byte string, a message
type with a different token string (mutations between kinds sharing one
token string, such as `Get` and `Custom("GET")`, are undetectable), data
with a different JSON rendering, or a different timestamp string. -/
theorem c7_hash_integrity :
    ∀ {H : Type} (sha : List Nat × String → H),
      (∀ (mt : MessageType) (d : Json) (idBytes : List Nat) (ts : String),
        SharedMessage.verifyHash sha (SharedMessage.new sha mt d idBytes ts)) ∧
      (Function.Injective sha →
        ∀ m : SharedMessage H, SharedMessage.verifyHash sha m →
          (∀ id2, id2 ≠ m.id →
            ¬ SharedMessage.verifyHash sha { m with id := id2 }) ∧
          (∀ mt2 : MessageType, mt2.token ≠ m.messageType.token →
            ¬ SharedMessage.verifyHash sha { m with messageType := mt2 }) ∧
          (∀ d2 : Json, d2.render ≠ m.data.render →
            ¬ SharedMessage.verifyHash sha { m with data := d2 }) ∧
          (∀ ts2, ts2 ≠ m.timestamp →
            ¬ SharedMessage.verifyHash sha { m with timestamp := ts2 })) := by
  intro H sha
  constructor
  · intro mt d idBytes ts
    exact rfl
  · intro hinj m hv
    have e1 : m.hash = sha (SharedMessage.hashInput m) := hv
    have key : ∀ m2 : SharedMessage H, m2.hash = m.hash →
        SharedMessage.verifyHash sha m2 →
        SharedMessage.hashInput m2 = SharedMessage.hashInput m := by
      intro m2 hsame hv2
      have e2 : m2.hash = sha (SharedMessage.hashInput m2) := hv2
      exact hinj (e2.symm.trans (hsame.trans e1))
    refine ⟨?_, ?_, ?_, ?_⟩
    · intro id2 hne hv2
      have hpair := key { m with id := id2 } rfl hv2
      simp only [SharedMessage.hashInput, Prod.mk.injEq] at hpair
      exact hne hpair.1
    · intro mt2 hne hv2
      apply hne
      have hpair := key { m with messageType := mt2 } rfl hv2
      simp only [SharedMessage.hashInput, Prod.mk.injEq] at hpair
      have hdata := congrArg String.data hpair.2
      rw [String.data_append, String.data_append, String.data_append,
        String.data_append] at hdata
      exact stringExt (List.append_cancel_right (List.append_cancel_right hdata))
    · intro d2 hne hv2
      apply hne
      have hpair := key { m with data := d2 } rfl hv2
      simp only [SharedMessage.hashInput, Prod.mk.injEq] at hpair
      have hdata := congrArg String.data hpair.2
      rw [String.data_append, String.data_append, String.data_append,
        String.data_append] at hdata
      exact stringExt (List.append_cancel_left (List.append_cancel_right hdata))
    · intro ts2 hne hv2
      apply hne
      have hpair := key { m with timestamp := ts2 } rfl hv2
      simp only [SharedMessage.hashInput, Prod.mk.injEq] at hpair
      have hdata := congrArg String.data hpair.2
      rw [String.data_append, String.data_append, String.data_append,
        String.data_append] at hdata
      exact stringExt (List.append_cancel_left hdata)

/-- Closed instantiation of the amended C7 under the injective hash:
a fresh message verifies; changing the data's JSON text or the timestamp
breaks verification. -/
theorem c7_hash_integrity_witness :
    SharedMessage.verifyHash c7Sha (SharedMessage.new c7Sha .get (Json.int 1) [0] "t") ∧
    ¬ SharedMessage.verifyHash c7Sha { c7Msg with data := Json.int 2 } ∧
    ¬ SharedMessage.verifyHash c7Sha { c7Msg with timestamp := "2025" } :=
  have h := c7_hash_integrity c7Sha
  have hm := h.2 (fun a b hab => hab) c7Msg rfl
  ⟨h.1 .get (Json.int 1) [0] "t",
   hm.2.2.1 (Json.int 2) (by decide),
   hm.2.2.2 "2025" (by decide)⟩

/-! ## Claim C10 — one vote per validator per slot, with overwrite -/

/-- Inserting (or overwriting) one validator's vote in one slot of a
slot-indexed vote map preserves "no duplicate validator keys in any
slot". -/
theorem slotNodupAfterInsert
    {vm : HMap (Nat × Nat) (HMap String Tendermint.Vote)}
    (hall : ∀ slot m', HMap.lookup vm slot = some m' → (HMap.keys m').Nodup)
    (slot : Nat × Nat) (v : String) (vote : Tendermint.Vote) :
    ∀ slot' m',
      HMap.lookup
        (HMap.insert vm slot (HMap.insert ((HMap.lookup vm slot).getD []) v vote)) slot' =
          some m' →
      (HMap.keys m').Nodup := by
  intro slot' m' hl
  by_cases hs : slot' = slot
  · subst hs
    rw [HMap.lookup_insert_self] at hl
    injection hl with hl
    subst hl
    apply HMap.nodup_keys_insert
    cases hcase : HMap.lookup vm slot' with
    | none => simp [HMap.keys]
    | some m0 => simpa [hcase] using hall slot' m0 hcase
  · rw [HMap.lookup_insert_ne _ _ _ _ hs] at hl
    exact hall slot' m' hl

/-- Claim C10: in every (height, round, phase) slot each validator has at
most one recorded vote (no duplicate keys in the per-slot maps); the
invariant is preserved by every prevote and precommit processing step;
and a later vote from the same validator in the same (current) slot
replaces that validator's earlier vote while leaving every other
validator's vote unchanged. -/
theorem c10_one_vote_per_validator :
    ∀ (s : Tendermint.TendermintState) (msg : Tendermint.TendermintMessageType)
      (now : String) (b : Bool) (s' : Tendermint.TendermintState),
      (Tendermint.VoteMapsNodup s →
        Tendermint.processPrevote s msg now = .ok (b, s') →
        Tendermint.VoteMapsNodup s') ∧
      (Tendermint.VoteMapsNodup s →
        Tendermint.processPrecommit s msg now = .ok (b, s') →
        Tendermint.VoteMapsNodup s') ∧
      (∀ h r bh v sg, msg = .prevote h r bh v sg →
        Tendermint.processPrevote s msg now = .ok (true, s') →
        HMap.lookup ((HMap.lookup s'.prevotes (h, r)).getD []) v =
          some { validator := v, blockHash := bh, signature := sg, timestamp := now } ∧
        ∀ w, w ≠ v →
          HMap.lookup ((HMap.lookup s'.prevotes (h, r)).getD []) w =
            HMap.lookup ((HMap.lookup s.prevotes (h, r)).getD []) w) ∧
      (∀ h r bh v sg, msg = .precommit h r bh v sg →
        Tendermint.processPrecommit s msg now = .ok (true, s') →
        HMap.lookup ((HMap.lookup s'.precommits (h, r)).getD []) v =
          some { validator := v, blockHash := bh, signature := sg, timestamp := now } ∧
        ∀ w, w ≠ v →
          HMap.lookup ((HMap.lookup s'.precommits (h, r)).getD []) w =
            HMap.lookup ((HMap.lookup s.precommits (h, r)).getD []) w) := by
  intro s msg now b s'
  have prevoteNoop : ∀ (hne : ∀ h r bh v sg, msg ≠ .prevote h r bh v sg),
      Tendermint.processPrevote s msg now = .ok (false, s) := by
    intro hne
    cases msg with
    | prevote h r bh v sg => exact absurd rfl (hne h r bh v sg)
    | proposal h r bh p ts sg => rfl
    | precommit h r bh v sg => rfl
    | validatorSet vs h => rfl
    | blockCommit h bh cs ts => rfl
  have precommitNoop : ∀ (hne : ∀ h r bh v sg, msg ≠ .precommit h r bh v sg),
      Tendermint.processPrecommit s msg now = .ok (false, s) := by
    intro hne
    cases msg with
    | precommit h r bh v sg => exact absurd rfl (hne h r bh v sg)
    | proposal h r bh p ts sg => rfl
    | prevote h r bh v sg => rfl
    | validatorSet vs h => rfl
    | blockCommit h bh cs ts => rfl
  refine ⟨?_, ?_, ?_, ?_⟩
  · intro hinv hp
    cases msg with
    | prevote h r bh v sg =>
      by_cases hc : h = s.currentHeight ∧ r = s.currentRound
      · obtain ⟨hh, hr⟩ := hc
        subst hh
        subst hr
        simp only [Tendermint.processPrevote, eq_self_iff_true, and_self, if_true] at hp
        injection hp with hp
        obtain ⟨-, rfl⟩ := Prod.mk.injEq .. ▸ hp
        exact ⟨slotNodupAfterInsert hinv.1 (s.currentHeight, s.currentRound) v _, hinv.2⟩
      · simp only [Tendermint.processPrevote] at hp
        rw [if_neg hc] at hp
        injection hp with hp
        obtain ⟨-, rfl⟩ := Prod.mk.injEq .. ▸ hp
        exact hinv
    | proposal h r bh p ts sg =>
      rw [prevoteNoop (by intro h1 r1 bh1 v1 sg1 he; cases he)] at hp
      injection hp with hp
      obtain ⟨-, rfl⟩ := Prod.mk.injEq .. ▸ hp
      exact hinv
    | precommit h r bh v sg =>
      rw [prevoteNoop (by intro h1 r1 bh1 v1 sg1 he; cases he)] at hp
      injection hp with hp
      obtain ⟨-, rfl⟩ := Prod.mk.injEq .. ▸ hp
      exact hinv
    | validatorSet vs h =>
      rw [prevoteNoop (by intro h1 r1 bh1 v1 sg1 he; cases he)] at hp
      injection hp with hp
      obtain ⟨-, rfl⟩ := Prod.mk.injEq .. ▸ hp
      exact hinv
    | blockCommit h bh cs ts =>
      rw [prevoteNoop (by intro h1 r1 bh1 v1 sg1 he; cases he)] at hp
      injection hp with hp
      obtain ⟨-, rfl⟩ := Prod.mk.injEq .. ▸ hp
      exact hinv
  · intro hinv hp
    cases msg with
    | precommit h r bh v sg =>
      by_cases hc : h = s.currentHeight ∧ r = s.currentRound
      · obtain ⟨hh, hr⟩ := hc
        subst hh
        subst hr
        simp only [Tendermint.processPrecommit, eq_self_iff_true, and_self, if_true] at hp
        injection hp with hp
        obtain ⟨-, rfl⟩ := Prod.mk.injEq .. ▸ hp
        exact ⟨hinv.1, slotNodupAfterInsert hinv.2 (s.currentHeight, s.currentRound) v _⟩
      · simp only [Tendermint.processPrecommit] at hp
        rw [if_neg hc] at hp
        injection hp with hp
        obtain ⟨-, rfl⟩ := Prod.mk.injEq .. ▸ hp
        exact hinv
    | proposal h r bh p ts sg =>
      rw [precommitNoop (by intro h1 r1 bh1 v1 sg1 he; cases he)] at hp
      injection hp with hp
      obtain ⟨-, rfl⟩ := Prod.mk.injEq .. ▸ hp
      exact hinv
    | prevote h r bh v sg =>
      rw [precommitNoop (by intro h1 r1 bh1 v1 sg1 he; cases he)] at hp
      injection hp with hp
      obtain ⟨-, rfl⟩ := Prod.mk.injEq .. ▸ hp
      exact hinv
    | validatorSet vs h =>
      rw [precommitNoop (by intro h1 r1 bh1 v1 sg1 he; cases he)] at hp
      injection hp with hp
      obtain ⟨-, rfl⟩ := Prod.mk.injEq .. ▸ hp
      exact hinv
    | blockCommit h bh cs ts =>
      rw [precommitNoop (by intro h1 r1 bh1 v1 sg1 he; cases he)] at hp
      injection hp with hp
      obtain ⟨-, rfl⟩ := Prod.mk.injEq .. ▸ hp
      exact hinv
  · intro h r bh v sg hmsg hp
    subst hmsg
    by_cases hc : h = s.currentHeight ∧ r = s.currentRound
    · obtain ⟨hh, hr⟩ := hc
      subst hh
      subst hr
      simp only [Tendermint.processPrevote, eq_self_iff_true, and_self, if_true] at hp
      injection hp with hp
      obtain ⟨-, rfl⟩ := Prod.mk.injEq .. ▸ hp
      constructor
      · show HMap.lookup ((HMap.lookup (HMap.insert s.prevotes (s.currentHeight, s.currentRound)
          (HMap.insert ((HMap.lookup s.prevotes (s.currentHeight, s.currentRound)).getD [])
            v { validator := v, blockHash := bh, signature := sg, timestamp := now }))
          (s.currentHeight, s.currentRound)).getD []) v = _
        rw [HMap.lookup_insert_self]
        simp only [Option.getD_some]
        exact HMap.lookup_insert_self _ _ _
      · intro w hw
        show HMap.lookup ((HMap.lookup (HMap.insert s.prevotes (s.currentHeight, s.currentRound)
          (HMap.insert ((HMap.lookup s.prevotes (s.currentHeight, s.currentRound)).getD [])
            v { validator := v, blockHash := bh, signature := sg, timestamp := now }))
          (s.currentHeight, s.currentRound)).getD []) w = _
        rw [HMap.lookup_insert_self]
        simp only [Option.getD_some]
        exact HMap.lookup_insert_ne _ _ _ _ hw
    · simp only [Tendermint.processPrevote] at hp
      rw [if_neg hc] at hp
      injection hp with hp
      obtain ⟨hb, -⟩ := Prod.mk.injEq .. ▸ hp
      cases hb
  · intro h r bh v sg hmsg hp
    subst hmsg
    by_cases hc : h = s.currentHeight ∧ r = s.currentRound
    · obtain ⟨hh, hr⟩ := hc
      subst hh
      subst hr
      simp only [Tendermint.processPrecommit, eq_self_iff_true, and_self, if_true] at hp
      injection hp with hp
      obtain ⟨-, rfl⟩ := Prod.mk.injEq .. ▸ hp
      constructor
      · show HMap.lookup ((HMap.lookup (HMap.insert s.precommits (s.currentHeight, s.currentRound)
          (HMap.insert ((HMap.lookup s.precommits (s.currentHeight, s.currentRound)).getD [])
            v { validator := v, blockHash := bh, signature := sg, timestamp := now }))
          (s.currentHeight, s.currentRound)).getD []) v = _
        rw [HMap.lookup_insert_self]
        simp only [Option.getD_some]
        exact HMap.lookup_insert_self _ _ _
      · intro w hw
        show HMap.lookup ((HMap.lookup (HMap.insert s.precommits (s.currentHeight, s.currentRound)
          (HMap.insert ((HMap.lookup s.precommits (s.currentHeight, s.currentRound)).getD [])
            v { validator := v, blockHash := bh, signature := sg, timestamp := now }))
          (s.currentHeight, s.currentRound)).getD []) w = _
        rw [HMap.lookup_insert_self]
        simp only [Option.getD_some]
        exact HMap.lookup_insert_ne _ _ _ _ hw
    · simp only [Tendermint.processPrecommit] at hp
      rw [if_neg hc] at hp
      injection hp with hp
      obtain ⟨hb, -⟩ := Prod.mk.injEq .. ▸ hp
      cases hb

/-- Closed instantiation of C10: two successive prevotes from validator
"V" in slot (1, 0); the invariant holds afterwards and the second vote
replaced the first. -/
theorem c10_one_vote_per_validator_witness :
    Tendermint.VoteMapsNodup c10After2 ∧
    HMap.lookup ((HMap.lookup c10After2.prevotes (1, 0)).getD []) "V" =
      some { validator := "V", blockHash := some "B2", signature := "sg2",
             timestamp := "now2" } := by
  have hinv0 : Tendermint.VoteMapsNodup (Tendermint.initialState "me" "t") := by
    constructor <;> intro slot vm hl <;> simp [Tendermint.initialState, HMap.lookup] at hl
  have h1 := (c10_one_vote_per_validator (Tendermint.initialState "me" "t")
    (.prevote 1 0 (some "B") "V" "sg1") "now" true c10After1).1 hinv0 rfl
  have h2 := (c10_one_vote_per_validator c10After1
    (.prevote 1 0 (some "B2") "V" "sg2") "now2" true c10After2).1 h1 rfl
  have h3 := (c10_one_vote_per_validator c10After1
    (.prevote 1 0 (some "B2") "V" "sg2") "now2" true c10After2).2.2.1
    1 0 (some "B2") "V" "sg2" rfl rfl
  exact ⟨h2, h3.1⟩

/-! ## Claim C1 — quorum rule of `has_majority` / `can_commit` -/

theorem tallyStepLookup (validators : HMap String Tendermint.ValidatorInfo)
    (acc : HMap (Option String) Nat) (v : Tendermint.Vote) (c : Option String) :
    (HMap.lookup (Tendermint.tallyStep validators acc v) c).getD 0 =
      (HMap.lookup acc c).getD 0 +
        (if v.blockHash = c then Tendermint.regPower validators v else 0) := by
  unfold Tendermint.tallyStep Tendermint.regPower
  cases hval : HMap.lookup validators v.validator with
  | none => simp
  | some vi =>
    by_cases hbh : v.blockHash = c
    · subst hbh
      rw [HMap.lookup_insert_self]
      simp
    · rw [HMap.lookup_insert_ne _ _ _ _ (fun he => hbh he.symm)]
      simp [hbh]

theorem tallyFoldLookup (validators : HMap String Tendermint.ValidatorInfo)
    (votes : List Tendermint.Vote) :
    ∀ (acc : HMap (Option String) Nat) (c : Option String),
      (HMap.lookup (votes.foldl (Tendermint.tallyStep validators) acc) c).getD 0 =
        (HMap.lookup acc c).getD 0 + Tendermint.weightFor validators votes c := by
  induction votes with
  | nil =>
    intro acc c
    simp [Tendermint.weightFor]
  | cons v votes ih =>
    intro acc c
    rw [List.foldl_cons, ih, tallyStepLookup]
    show _ = (HMap.lookup acc c).getD 0 +
      ((if v.blockHash = c then Tendermint.regPower validators v else 0) +
        Tendermint.weightFor validators votes c)
    rw [Nat.add_assoc]

theorem tallyFoldNodup (validators : HMap String Tendermint.ValidatorInfo)
    (votes : List Tendermint.Vote) :
    ∀ acc : HMap (Option String) Nat,
      (HMap.keys acc).Nodup →
      (HMap.keys (votes.foldl (Tendermint.tallyStep validators) acc)).Nodup := by
  induction votes with
  | nil =>
    intro acc h
    simpa using h
  | cons v votes ih =>
    intro acc h
    rw [List.foldl_cons]
    apply ih
    unfold Tendermint.tallyStep
    cases HMap.lookup validators v.validator with
    | none => exact h
    | some vi => exact HMap.nodup_keys_insert _ _ h

theorem tallyLookup (validators : HMap String Tendermint.ValidatorInfo)
    (votes : List Tendermint.Vote) (c : Option String) :
    (HMap.lookup (Tendermint.tallyVotes validators votes) c).getD 0 =
      Tendermint.weightFor validators votes c := by
  unfold Tendermint.tallyVotes
  rw [tallyFoldLookup]
  simp [HMap.lookup]

theorem tallyNodup (validators : HMap String Tendermint.ValidatorInfo)
    (votes : List Tendermint.Vote) :
    (HMap.keys (Tendermint.tallyVotes validators votes)).Nodup :=
  tallyFoldNodup validators votes [] (by simp [HMap.keys])

theorem memTally {validators : HMap String Tendermint.ValidatorInfo}
    {votes : List Tendermint.Vote} {c : Option String} {p : Nat}
    (h : (c, p) ∈ Tendermint.tallyVotes validators votes) :
    p = Tendermint.weightFor validators votes c := by
  have hl := HMap.lookup_eq_some_of_mem (tallyNodup validators votes) h
  have hgd := tallyLookup validators votes c
  rw [hl] at hgd
  simpa using hgd

/-- Claim C1: a block hash wins quorum exactly when its accumulated power
times 3 strictly exceeds the total active power times 2 (exactly
two-thirds loses); nil votes never count toward a concrete hash
(restricting the votes to non-nil ones changes no concrete tally);
`can_commit` answers a hash only when that hash's accumulated power wins,
and answers nothing only when no hash wins; and in the three-validator
weight-100 scenario, two precommits for "H" do not commit while three
do. -/
theorem c1_quorum_supermajority :
    (∀ (s : Tendermint.TendermintState) (p : Nat),
      Tendermint.hasMajority s p = true ↔ p * 3 > Tendermint.totalVotingPower s * 2) ∧
    (∀ (s : Tendermint.TendermintState) (p : Nat),
      p * 3 = Tendermint.totalVotingPower s * 2 → Tendermint.hasMajority s p = false) ∧
    (∀ (validators : HMap String Tendermint.ValidatorInfo)
      (votes : List Tendermint.Vote) (h : String),
      Tendermint.weightFor validators votes (some h) =
        Tendermint.weightFor validators
          (votes.filter (fun v => v.blockHash ≠ none)) (some h)) ∧
    (∀ (s : Tendermint.TendermintState) (h : String),
      Tendermint.canCommit s = some h →
        Tendermint.weightFor s.validators (Tendermint.currentVotes s) (some h) * 3 >
          Tendermint.totalVotingPower s * 2) ∧
    (∀ s : Tendermint.TendermintState,
      Tendermint.canCommit s = none →
        ∀ h : String,
          ¬(Tendermint.weightFor s.validators (Tendermint.currentVotes s) (some h) * 3 >
            Tendermint.totalVotingPower s * 2)) ∧
    (Except.map Tendermint.canCommit
        (Tendermint.runPrecommits c1Start [c1PrecommitA, c1PrecommitB] "now") =
        .ok none ∧
      Except.map Tendermint.canCommit
        (Tendermint.runPrecommits c1Start
          [c1PrecommitA, c1PrecommitB, c1PrecommitC] "now") = .ok (some "H")) := by
  refine ⟨?_, ?_, ?_, ?_, ?_, by decide⟩
  · intro s p
    simp [Tendermint.hasMajority]
  · intro s p hp
    simp [Tendermint.hasMajority, hp]
  · intro validators votes h
    induction votes with
    | nil => rfl
    | cons v votes ih =>
      cases hbh : v.blockHash with
      | none => simp [Tendermint.weightFor, hbh, ih]
      | some h' => simp [Tendermint.weightFor, hbh, ih]
  · intro s h hcc
    unfold Tendermint.canCommit at hcc
    cases hl : HMap.lookup s.precommits (s.currentHeight, s.currentRound) with
    | none =>
      rw [hl] at hcc
      cases hcc
    | some slotVotes =>
      rw [hl] at hcc
      obtain ⟨entry, hmem, hf⟩ := findSomeEqSome hcc
      obtain ⟨c, p⟩ := entry
      cases c with
      | none => cases hf
      | some h2 =>
        have hf2 : (if Tendermint.hasMajority s p = true then some h2 else none) =
            some h := hf
        by_cases hm : Tendermint.hasMajority s p = true
        · rw [if_pos hm] at hf2
          injection hf2 with hf2
          subst hf2
          have hw := memTally hmem
          have hcv : Tendermint.currentVotes s = HMap.values slotVotes := by
            unfold Tendermint.currentVotes
            rw [hl]
            rfl
          rw [hcv, ← hw]
          simpa [Tendermint.hasMajority] using hm
        · rw [if_neg hm] at hf2
          cases hf2
  · intro s hcc h
    unfold Tendermint.canCommit at hcc
    cases hl : HMap.lookup s.precommits (s.currentHeight, s.currentRound) with
    | none =>
      have hcv : Tendermint.currentVotes s = [] := by
        unfold Tendermint.currentVotes
        rw [hl]
        rfl
      rw [hcv]
      intro hgt
      simp [Tendermint.weightFor] at hgt
    | some slotVotes =>
      rw [hl] at hcc
      have hall := findSomeEqNone hcc
      have hcv : Tendermint.currentVotes s = HMap.values slotVotes := by
        unfold Tendermint.currentVotes
        rw [hl]
        rfl
      rw [hcv]
      intro hgt
      by_cases hk : (some h) ∈
          HMap.keys (Tendermint.tallyVotes s.validators (HMap.values slotVotes))
      · obtain ⟨p, hp⟩ := HMap.mem_of_mem_keys hk
        have hw := memTally hp
        have hfe : (if Tendermint.hasMajority s p = true then some h else none) =
            none := hall _ hp
        by_cases hm : Tendermint.hasMajority s p = true
        · rw [if_pos hm] at hfe
          cases hfe
        · have hm' : ¬(p * 3 > Tendermint.totalVotingPower s * 2) := by
            intro hx
            exact hm (by simpa [Tendermint.hasMajority] using hx)
          rw [← hw] at hgt
          exact hm' hgt
      · have hln := HMap.lookup_eq_none_of_not_mem_keys hk
        have hgd := tallyLookup s.validators (HMap.values slotVotes) (some h)
        rw [hln] at hgd
        simp at hgd
        rw [← hgd] at hgt
        simp at hgt

/-- Closed instantiation of C1: with three weight-100 validators, power
200 does not reach quorum (200·3 = 600 = 300·2) while 300 does; on the
state with all three precommits for "H", `can_commit` answers "H" and the
theorem yields the supermajority inequality. -/
theorem c1_quorum_supermajority_witness :
    Tendermint.hasMajority c1Start 200 = false ∧
    Tendermint.hasMajority c1Start 300 = true ∧
    Tendermint.canCommit c1AllPrecommits = some "H" ∧
    Tendermint.weightFor c1AllPrecommits.validators
        (Tendermint.currentVotes c1AllPrecommits) (some "H") * 3 >
      Tendermint.totalVotingPower c1AllPrecommits * 2 :=
  ⟨c1_quorum_supermajority.2.1 c1Start 200 (by decide),
   (c1_quorum_supermajority.1 c1Start 300).mpr (by decide),
   by decide,
   c1_quorum_supermajority.2.2.2.1 c1AllPrecommits "H" (by decide)⟩

end Chaincraft

